import Mathlib

/-!
# Verification of the sync backend (zql query compiler, replication pipeline,
# connection handling, outbound streams, view syncer)

Shallow embedding of the TypeScript sources:

* `ast-to-ivm pipeline builder` (`buildPipeline` / `applyWhere` / `getOperator`
  / `getLikeOp` / `patternToRegExp`),
* `zero-cache/src/workers/connection.ts` (`Connection.#handleMessage`),
* `zero-cache/src/types/streams.ts` (`streamOut`),
* `replicator/incremental-sync.ts` (`MessageProcessor` / `TransactionProcessor`),
* view-syncer operations (modelled from the spec where the implementation is
  not part of the sources).

JS runtime values flowing through predicates are embedded as `QVal`.
-/

/-- JS values appearing in query conditions and rows.  `jsUndefined` models
`undefined` (absent field).  Arrays are embedded structurally. -/
inductive QVal where
  | jsUndefined : QVal
  | null : QVal
  | str (s : String) : QVal
  | num (n : Int) : QVal
  | bool (b : Bool) : QVal
  | arr (vs : List QVal) : QVal
deriving Repr

mutual
/-- Structural boolean equality on `QVal`. -/
def QVal.beq : QVal → QVal → Bool
  | .jsUndefined, .jsUndefined => true
  | .null, .null => true
  | .str a, .str b => a == b
  | .num a, .num b => a == b
  | .bool a, .bool b => a == b
  | .arr a, .arr b => QVal.beqList a b
  | _, _ => false

/-- Structural boolean equality on lists of `QVal`. -/
def QVal.beqList : List QVal → List QVal → Bool
  | [], [] => true
  | a :: as_, b :: bs => QVal.beq a b && QVal.beqList as_ bs
  | _, _ => false
end

mutual
theorem QVal.beq_iff : ∀ {a b : QVal}, QVal.beq a b = true ↔ a = b
  | .jsUndefined, .jsUndefined => by simp [QVal.beq]
  | .jsUndefined, .null | .jsUndefined, .str _ | .jsUndefined, .num _ | .jsUndefined, .bool _
  | .jsUndefined, .arr _ => by simp [QVal.beq]
  | .null, .jsUndefined | .null, .str _ | .null, .num _ | .null, .bool _
  | .null, .arr _ => by simp [QVal.beq]
  | .null, .null => by simp [QVal.beq]
  | .str a, .str b => by simp [QVal.beq]
  | .str _, .jsUndefined | .str _, .null | .str _, .num _ | .str _, .bool _
  | .str _, .arr _ => by simp [QVal.beq]
  | .num a, .num b => by simp [QVal.beq]
  | .num _, .jsUndefined | .num _, .null | .num _, .str _ | .num _, .bool _
  | .num _, .arr _ => by simp [QVal.beq]
  | .bool a, .bool b => by simp [QVal.beq]
  | .bool _, .jsUndefined | .bool _, .null | .bool _, .str _ | .bool _, .num _
  | .bool _, .arr _ => by simp [QVal.beq]
  | .arr a, .arr b => by
      simp only [QVal.beq]
      rw [QVal.beqList_iff]
      simp
  | .arr _, .jsUndefined | .arr _, .null | .arr _, .str _ | .arr _, .num _
  | .arr _, .bool _ => by simp [QVal.beq]

theorem QVal.beqList_iff : ∀ {a b : List QVal}, QVal.beqList a b = true ↔ a = b
  | [], [] => by simp [QVal.beqList]
  | [], _ :: _ => by simp [QVal.beqList]
  | _ :: _, [] => by simp [QVal.beqList]
  | a :: as_, b :: bs => by
      simp only [QVal.beqList, Bool.and_eq_true]
      rw [QVal.beq_iff, QVal.beqList_iff]
      simp
end

instance : DecidableEq QVal := fun a b =>
  if h : QVal.beq a b = true then .isTrue (QVal.beq_iff.mp h)
  else .isFalse (fun hab => h (QVal.beq_iff.mpr hab))

/-! ## LIKE / ILIKE pattern compilation (`getLikeOp`, `patternToRegExp`)

The source compiles a SQL LIKE pattern to a JavaScript `RegExp` whose source
string is `'^' + translated + '$'`, escaping regexp metacharacters.  The
produced regexp source is embedded here as a `List Char`, and the relevant
fragment of JavaScript regexp semantics (literals, `.`, postfix `*`, `\`
escapes, full anchoring) is given by `parseRegexBody` / `rtermsMatch`. -/

/-- The character class of `specialCharsRe`, i.e. `[$()*+.?[\]\\^{|}]`. -/
def isSpecialChar (c : Char) : Bool :=
  c == '$' || c == '(' || c == ')' || c == '*' || c == '+' || c == '.' ||
  c == '?' || c == '[' || c == ']' || c == '\\' || c == '^' ||
  c == '\x7b' || c == '|' || c == '\x7d'

/-- The `default` branch of the `switch` in `patternToRegExp`: prepend a
backslash when the character is a regexp metacharacter, then the character. -/
def escapeChar (c : Char) : List Char :=
  if isSpecialChar c then ['\\', c] else [c]

/-- The loop body of `patternToRegExp` over the LIKE pattern: `%` appends
`.*`, `_` appends `.`, `\` consumes the next character (erroring when the
pattern ends with the escape), and every other (or escaped) character is
appended with metacharacter escaping. -/
def patternToRegExpLoop : List Char → Except String (List Char)
  | [] => .ok []
  | c :: rest =>
    if c = '%' then
      (patternToRegExpLoop rest).map (fun body => '.' :: '*' :: body)
    else if c = '_' then
      (patternToRegExpLoop rest).map (fun body => '.' :: body)
    else if c = '\\' then
      match rest with
      | [] => .error "LIKE pattern must not end with escape character"
      | d :: rest' =>
        (patternToRegExpLoop rest').map (fun body => escapeChar d ++ body)
    else
      (patternToRegExpLoop rest).map (fun body => escapeChar c ++ body)

/-- `patternToRegExp`: the translated body anchored as `'^' … '$'`. -/
def patternToRegExp (source : List Char) : Except String (List Char) :=
  (patternToRegExpLoop source).map (fun body => '^' :: (body ++ ['$']))

/-- Atoms of the regexp fragment produced by `patternToRegExp`. -/
inductive RAtom where
  | dot : RAtom
  | lit (c : Char) : RAtom
deriving DecidableEq, Repr

/-- One term of the regexp fragment: an atom with an optional postfix `*`. -/
structure RTerm where
  atom : RAtom
  star : Bool
deriving DecidableEq, Repr

/-- Parser for the regexp fragment appearing between the `^` and `$` anchors:
`\c` is a literal, `.` matches any character, a postfix `*` repeats the
preceding atom; unescaped metacharacters are refused. -/
def parseRegexBody : List Char → Option (List RTerm)
  | [] => some []
  | c :: rest =>
    if c = '\\' then
      match rest with
      | [] => none
      | d :: rest2 =>
        match rest2 with
        | e :: rest3 =>
          if e = '*' then
            (parseRegexBody rest3).map (fun ts => ⟨.lit d, true⟩ :: ts)
          else
            (parseRegexBody (e :: rest3)).map (fun ts => ⟨.lit d, false⟩ :: ts)
        | [] => (parseRegexBody []).map (fun ts => ⟨.lit d, false⟩ :: ts)
    else if c = '.' then
      match rest with
      | e :: rest3 =>
        if e = '*' then
          (parseRegexBody rest3).map (fun ts => ⟨.dot, true⟩ :: ts)
        else
          (parseRegexBody (e :: rest3)).map (fun ts => ⟨.dot, false⟩ :: ts)
      | [] => (parseRegexBody []).map (fun ts => ⟨.dot, false⟩ :: ts)
    else if isSpecialChar c then none
    else
      match rest with
      | e :: rest3 =>
        if e = '*' then
          (parseRegexBody rest3).map (fun ts => ⟨.lit c, true⟩ :: ts)
        else
          (parseRegexBody (e :: rest3)).map (fun ts => ⟨.lit c, false⟩ :: ts)
      | [] => (parseRegexBody []).map (fun ts => ⟨.lit c, false⟩ :: ts)

/-- ECMA-262 line terminators (LF, CR, LINE SEPARATOR, PARAGRAPH
SEPARATOR). -/
def isLineTerminator (c : Char) : Bool :=
  c == '\n' || c == '\r' || c == '\u2028' || c == '\u2029'

/-- Does an atom match one character?  `ci` is the `i` (ignore-case) flag.
Per ECMA-262, `.` without the `s` (dotAll) flag — and `patternToRegExp`
passes only `''` or `'i'` — matches every character except a line
terminator. -/
def atomMatch (ci : Bool) : RAtom → Char → Bool
  | .dot, d => !isLineTerminator d
  | .lit c, d => if ci then c.toLower == d.toLower else c == d

/-- Anchored matching of a term list against a string: a starred atom consumes
any run of matching characters, an unstarred atom exactly one. -/
def rtermsMatch (ci : Bool) : List RTerm → List Char → Bool
  | [], [] => true
  | [], _ :: _ => false
  | ⟨a, false⟩ :: ts, s =>
    match s with
    | [] => false
    | c :: s' => atomMatch ci a c && rtermsMatch ci ts s'
  | ⟨a, true⟩ :: ts, s =>
    (List.range (s.length + 1)).any fun n =>
      (s.take n).all (atomMatch ci a) && rtermsMatch ci ts (s.drop n)

/-- `re.test(lhs)` for a regexp source of the shape `'^' … '$'` built by
`patternToRegExp`: parse the body and require a full anchored match. -/
def regexTest (ci : Bool) (full : List Char) (s : List Char) : Bool :=
  match full with
  | [] => false
  | a :: rest =>
    if a = '^' then
      if rest.getLast? = some '$' then
        match parseRegexBody rest.dropLast with
        | some terms => rtermsMatch ci terms s
        | none => false
      else false
    else false

/-- `getLikeOp(pattern, flags)`: patterns free of `%`, `_` and `\` compile to
a plain string comparison (lowercase-folded under the `i` flag); all others
go through `patternToRegExp`. -/
def getLikeOp (pattern : List Char) (iflag : Bool) :
    Except String (List Char → Bool) :=
  if ¬ pattern.any (fun c => c == '_' || c == '%' || c == '\\') then
    if iflag then
      .ok (fun lhs => lhs.map Char.toLower == pattern.map Char.toLower)
    else
      .ok (fun lhs => lhs == pattern)
  else
    match patternToRegExp pattern with
    | .ok re => .ok (fun lhs => regexTest iflag re lhs)
    | .error e => .error e

/-! ## SQL LIKE semantics (specification side)

The spec states: `%` matches any run of characters, `_` matches exactly one
character, `\` escapes the following character, and a pattern ending in an
unescaped `\` is an error.  `likeTokens` and `likeMatches` formalise exactly
those words, independently of the regexp translation above. -/

/-- A token of a LIKE pattern per the spec: `%`, `_`, or a literal character
(possibly produced by a `\` escape). -/
inductive LTok where
  | percent : LTok
  | uscore : LTok
  | lchar (c : Char) : LTok
deriving DecidableEq, Repr

/-- Tokenise a LIKE pattern following the spec's words; a trailing unescaped
backslash errors. -/
def likeTokens : List Char → Except String (List LTok)
  | [] => .ok []
  | c :: rest =>
    if c = '%' then
      (likeTokens rest).map (fun ts => .percent :: ts)
    else if c = '_' then
      (likeTokens rest).map (fun ts => .uscore :: ts)
    else if c = '\\' then
      match rest with
      | [] => .error "LIKE pattern must not end with escape character"
      | d :: rest' =>
        (likeTokens rest').map (fun ts => .lchar d :: ts)
    else
      (likeTokens rest).map (fun ts => .lchar c :: ts)

/-- One-character comparison, lowercase-folded when `ci` is set (ILIKE). -/
def charMatch (ci : Bool) (c d : Char) : Bool :=
  if ci then c.toLower == d.toLower else c == d

/-- SQL LIKE matching of a token list against a string: `%` consumes any run,
`_` exactly one character, a literal exactly itself. -/
def likeMatches (ci : Bool) : List LTok → List Char → Bool
  | [], [] => true
  | [], _ :: _ => false
  | .percent :: ts, s =>
    (List.range (s.length + 1)).any fun n => likeMatches ci ts (s.drop n)
  | .uscore :: ts, s =>
    match s with
    | [] => false
    | _ :: s' => likeMatches ci ts s'
  | .lchar c :: ts, s =>
    match s with
    | [] => false
    | d :: s' => charMatch ci c d && likeMatches ci ts s'

/-- Regexp term corresponding to a LIKE token. -/
def ltokToRTerm : LTok → RTerm
  | .percent => ⟨.dot, true⟩
  | .uscore => ⟨.dot, false⟩
  | .lchar c => ⟨.lit c, false⟩

/-- Print the regexp body fragment for a token list exactly as the
`patternToRegExp` loop emits it. -/
def emitTerms : List LTok → List Char
  | [] => []
  | .percent :: ts => '.' :: '*' :: emitTerms ts
  | .uscore :: ts => '.' :: emitTerms ts
  | .lchar c :: ts => escapeChar c ++ emitTerms ts

/-! ## Correspondence between the regexp translation and SQL LIKE -/

theorem patternToRegExpLoop_cons (c : Char) (rest : List Char) :
    patternToRegExpLoop (c :: rest) =
      if c = '%' then
        (patternToRegExpLoop rest).map (fun body => '.' :: '*' :: body)
      else if c = '_' then
        (patternToRegExpLoop rest).map (fun body => '.' :: body)
      else if c = '\\' then
        match rest with
        | [] => .error "LIKE pattern must not end with escape character"
        | d :: rest' =>
          (patternToRegExpLoop rest').map (fun body => escapeChar d ++ body)
      else
        (patternToRegExpLoop rest).map (fun body => escapeChar c ++ body) := by
  rw [patternToRegExpLoop.eq_def]

theorem likeTokens_cons (c : Char) (rest : List Char) :
    likeTokens (c :: rest) =
      if c = '%' then
        (likeTokens rest).map (fun ts => .percent :: ts)
      else if c = '_' then
        (likeTokens rest).map (fun ts => .uscore :: ts)
      else if c = '\\' then
        match rest with
        | [] => .error "LIKE pattern must not end with escape character"
        | d :: rest' =>
          (likeTokens rest').map (fun ts => .lchar d :: ts)
      else
        (likeTokens rest).map (fun ts => .lchar c :: ts) := by
  rw [likeTokens.eq_def]

/-- The regexp body built by the `patternToRegExp` loop is exactly the printed
form of the spec-side LIKE tokens (and both fail on the same patterns). -/
theorem patternToRegExpLoop_eq_likeTokens (p : List Char) :
    patternToRegExpLoop p = (likeTokens p).map emitTerms := by
  match p with
  | [] => simp [patternToRegExpLoop, likeTokens, emitTerms, Except.map]
  | c :: rest =>
    by_cases h1 : c = '%'
    · have ih := patternToRegExpLoop_eq_likeTokens rest
      simp only [patternToRegExpLoop_cons, likeTokens_cons, if_pos h1, ih]
      cases likeTokens rest <;> simp [emitTerms, Except.map]
    · by_cases h2 : c = '_'
      · have ih := patternToRegExpLoop_eq_likeTokens rest
        simp only [patternToRegExpLoop_cons, likeTokens_cons, if_neg h1, if_pos h2, ih]
        cases likeTokens rest <;> simp [emitTerms, Except.map]
      · by_cases h3 : c = '\\'
        · subst h3
          cases rest with
          | nil => simp [patternToRegExpLoop_cons, likeTokens_cons, Except.map]
          | cons d rest' =>
            have ih := patternToRegExpLoop_eq_likeTokens rest'
            simp only [patternToRegExpLoop_cons, likeTokens_cons, if_neg h1, if_neg h2, ih]
            cases likeTokens rest' <;> simp [emitTerms, Except.map]
        · have ih := patternToRegExpLoop_eq_likeTokens rest
          simp only [patternToRegExpLoop_cons, likeTokens_cons, if_neg h1, if_neg h2,
            if_neg h3, ih]
          cases likeTokens rest <;> simp [emitTerms, Except.map]
termination_by p.length

theorem parseRegexBody_esc_nostar (d : Char) (rest : List Char)
    (h : ∀ l, rest ≠ '*' :: l) :
    parseRegexBody ('\\' :: d :: rest) =
      (parseRegexBody rest).map (fun ts => ⟨.lit d, false⟩ :: ts) := by
  rw [parseRegexBody.eq_def]
  cases rest with
  | nil => simp
  | cons e l =>
    have he : e ≠ '*' := fun hee => h l (hee ▸ rfl)
    simp [he]

theorem parseRegexBody_dotstar (l : List Char) :
    parseRegexBody ('.' :: '*' :: l) =
      (parseRegexBody l).map (fun ts => ⟨.dot, true⟩ :: ts) := by
  rw [parseRegexBody.eq_def]
  simp

theorem parseRegexBody_dot_nostar (rest : List Char)
    (h : ∀ l, rest ≠ '*' :: l) :
    parseRegexBody ('.' :: rest) =
      (parseRegexBody rest).map (fun ts => ⟨.dot, false⟩ :: ts) := by
  rw [parseRegexBody.eq_def]
  cases rest with
  | nil => simp
  | cons e l =>
    have he : e ≠ '*' := fun hee => h l (hee ▸ rfl)
    simp [he]

theorem parseRegexBody_lit_nostar (c : Char) (rest : List Char)
    (hc : isSpecialChar c = false) (h : ∀ l, rest ≠ '*' :: l) :
    parseRegexBody (c :: rest) =
      (parseRegexBody rest).map (fun ts => ⟨.lit c, false⟩ :: ts) := by
  have hbs : c ≠ '\\' := by
    intro hcc
    rw [hcc] at hc
    exact absurd hc (by decide)
  have hdot : c ≠ '.' := by
    intro hcc
    rw [hcc] at hc
    exact absurd hc (by decide)
  rw [parseRegexBody.eq_def]
  cases rest with
  | nil => simp [hbs, hdot, hc]
  | cons e l =>
    have he : e ≠ '*' := fun hee => h l (hee ▸ rfl)
    simp [hbs, hdot, hc, he]

/-- The printed token body never starts with a bare `*`. -/
theorem emitTerms_ne_star_cons (ts : List LTok) (l : List Char) :
    emitTerms ts ≠ '*' :: l := by
  cases ts with
  | nil => simp [emitTerms]
  | cons t ts' =>
    cases t with
    | percent => simp [emitTerms]
    | uscore => simp [emitTerms]
    | lchar c =>
      simp only [emitTerms, escapeChar]
      by_cases h : isSpecialChar c
      · simp [h]
      · simp only [h, Bool.false_eq_true, if_false, List.cons_append, List.nil_append]
        intro heq
        injection heq with h1 _
        exact h (h1 ▸ (by decide : isSpecialChar '*' = true))

/-- Round-trip: parsing the printed regexp body recovers the terms. -/
theorem parseRegexBody_emitTerms (ts : List LTok) :
    parseRegexBody (emitTerms ts) = some (ts.map ltokToRTerm) := by
  induction ts with
  | nil => simp [emitTerms, parseRegexBody]
  | cons t ts' ih =>
    cases t with
    | percent =>
      rw [emitTerms, parseRegexBody_dotstar, ih]
      simp [ltokToRTerm]
    | uscore =>
      rw [emitTerms, parseRegexBody_dot_nostar _ (emitTerms_ne_star_cons ts'), ih]
      simp [ltokToRTerm]
    | lchar c =>
      by_cases hs : isSpecialChar c
      · rw [emitTerms]
        simp only [escapeChar, hs, if_true, List.cons_append, List.nil_append]
        rw [parseRegexBody_esc_nostar _ _ (emitTerms_ne_star_cons ts'), ih]
        simp [ltokToRTerm]
      · rw [emitTerms]
        simp only [escapeChar, hs, Bool.false_eq_true, if_false, List.cons_append,
          List.nil_append]
        rw [parseRegexBody_lit_nostar _ _ (by simpa using hs) (emitTerms_ne_star_cons ts'),
          ih]
        simp [ltokToRTerm]

/-- The regexp matcher on translated tokens agrees with SQL LIKE matching
on strings free of line terminators (on other strings the `.`/`.*` atoms
produced for `_`/`%` refuse the line terminator and the two sides
diverge). -/
theorem rtermsMatch_map_ltok (ci : Bool) (ts : List LTok) (s : List Char)
    (hs : s.all (fun c => !isLineTerminator c) = true) :
    rtermsMatch ci (ts.map ltokToRTerm) s = likeMatches ci ts s := by
  induction ts generalizing s with
  | nil => cases s <;> simp [rtermsMatch, likeMatches]
  | cons t ts' ih =>
    cases t with
    | percent =>
      simp only [List.map_cons, ltokToRTerm, rtermsMatch, likeMatches]
      congr 1
      funext n
      have htake : (s.take n).all (atomMatch ci RAtom.dot) = true := by
        simp only [List.all_eq_true]
        intro c hc
        have := List.all_eq_true.mp hs c (List.take_subset n s hc)
        simpa [atomMatch] using this
      have hdrop : (s.drop n).all (fun c => !isLineTerminator c) = true := by
        simp only [List.all_eq_true]
        intro c hc
        exact List.all_eq_true.mp hs c (List.drop_subset n s hc)
      rw [htake, ih _ hdrop]
      simp
    | uscore =>
      cases s with
      | nil => simp [ltokToRTerm, rtermsMatch, likeMatches]
      | cons c s' =>
        simp only [List.all_cons, Bool.and_eq_true] at hs
        obtain ⟨hc, hs'⟩ := hs
        simp [ltokToRTerm, rtermsMatch, likeMatches, atomMatch, hc, ih _ hs']
    | lchar a =>
      cases s with
      | nil => simp [ltokToRTerm, rtermsMatch, likeMatches]
      | cons c s' =>
        simp only [List.all_cons, Bool.and_eq_true] at hs
        obtain ⟨_, hs'⟩ := hs
        simp [ltokToRTerm, rtermsMatch, likeMatches, atomMatch, charMatch, ih _ hs']

/-- On all-literal token lists (no `.` atom) the regexp matcher agrees with
SQL LIKE matching on every string, with no line-terminator caveat. -/
theorem rtermsMatch_map_lchar (ci : Bool) (p : List Char) (s : List Char) :
    rtermsMatch ci ((p.map LTok.lchar).map ltokToRTerm) s =
      likeMatches ci (p.map .lchar) s := by
  induction p generalizing s with
  | nil => cases s <;> simp [rtermsMatch, likeMatches]
  | cons a p' ih =>
    cases s with
    | nil => simp [ltokToRTerm, rtermsMatch, likeMatches]
    | cons c s' =>
      simp only [List.map_cons, ltokToRTerm, rtermsMatch, likeMatches,
        atomMatch, charMatch]
      rw [ih s']

/-- Patterns free of `%`, `_` and `\` tokenise to plain literals. -/
theorem likeTokens_no_special (p : List Char)
    (h : p.all (fun c => ¬(c == '_' || c == '%' || c == '\\')) = true) :
    likeTokens p = .ok (p.map .lchar) := by
  induction p with
  | nil => simp [likeTokens]
  | cons c rest ih =>
    simp only [List.all_cons, Bool.and_eq_true, decide_eq_true_eq] at h
    obtain ⟨hc, hrest⟩ := h
    simp only [Bool.or_eq_true, beq_iff_eq, not_or] at hc
    obtain ⟨⟨h1, h2⟩, h3⟩ := hc
    rw [likeTokens_cons]
    rw [if_neg h2, if_neg h1, if_neg h3, ih hrest]
    simp [Except.map]

/-- LIKE matching of an all-literal token list is string equality. -/
theorem likeMatches_all_lchar_false (p : List Char) (s : List Char) :
    likeMatches false (p.map .lchar) s = (s == p) := by
  induction p generalizing s with
  | nil => cases s <;> simp [likeMatches]
  | cons c p' ih =>
    cases s with
    | nil => simp [likeMatches]
    | cons d s' =>
      simp only [List.map_cons, likeMatches, charMatch, if_neg Bool.false_ne_true, ih,
        List.cons_beq_cons]
      rw [Bool.beq_comm]

theorem likeMatches_all_lchar_true (p : List Char) (s : List Char) :
    likeMatches true (p.map .lchar) s = (s.map Char.toLower == p.map Char.toLower) := by
  induction p generalizing s with
  | nil => cases s <;> simp [likeMatches]
  | cons c p' ih =>
    cases s with
    | nil => simp [likeMatches]
    | cons d s' =>
      simp only [List.map_cons, likeMatches, charMatch, if_true, ih,
        List.cons_beq_cons]
      simp [Bool.beq_comm]

theorem regexTest_emitTerms (ci : Bool) (toks : List LTok) (s : List Char)
    (hs : s.all (fun c => !isLineTerminator c) = true) :
    regexTest ci ('^' :: (emitTerms toks ++ ['$'])) s = likeMatches ci toks s := by
  rw [regexTest.eq_def]
  simp only [if_pos rfl, List.getLast?_concat, List.dropLast_concat,
    parseRegexBody_emitTerms]
  exact rtermsMatch_map_ltok ci toks s hs

theorem regexTest_emitTerms_lchar (ci : Bool) (p : List Char) (s : List Char) :
    regexTest ci ('^' :: (emitTerms (p.map .lchar) ++ ['$'])) s =
      likeMatches ci (p.map .lchar) s := by
  rw [regexTest.eq_def]
  simp only [if_pos rfl, List.getLast?_concat, List.dropLast_concat,
    parseRegexBody_emitTerms]
  exact rtermsMatch_map_lchar ci p s

theorem likeTokens_error_has_bslash (p : List Char) (e : String)
    (h : likeTokens p = .error e) :
    p.any (fun c => c == '_' || c == '%' || c == '\\') = true := by
  induction p with
  | nil => simp [likeTokens] at h
  | cons c rest ih =>
    rw [likeTokens_cons] at h
    by_cases h1 : c = '%'
    · simp [h1]
    · by_cases h2 : c = '_'
      · simp [h2]
      · by_cases h3 : c = '\\'
        · simp [h3]
        · rw [if_neg h1, if_neg h2, if_neg h3] at h
          cases hrest : likeTokens rest with
          | ok ts => rw [hrest] at h; simp [Except.map] at h
          | error e' =>
            rw [hrest] at h
            have he : e' = e := by simpa [Except.map] using h
            subst he
            simp only [List.any_cons, Bool.or_eq_true]
            exact Or.inr (ih hrest)

theorem getLikeOp_ok_matches (p : List Char) (toks : List LTok) (iflag : Bool)
    (h : likeTokens p = .ok toks) :
    ∃ f, getLikeOp p iflag = .ok f ∧
      ∀ s, s.all (fun c => !isLineTerminator c) = true →
        f s = likeMatches iflag toks s := by
  by_cases hany : p.any (fun c => c == '_' || c == '%' || c == '\\') = true
  · -- regexp branch
    have hloop : patternToRegExpLoop p = .ok (emitTerms toks) := by
      rw [patternToRegExpLoop_eq_likeTokens, h]; rfl
    have hre : patternToRegExp p = .ok ('^' :: (emitTerms toks ++ ['$'])) := by
      rw [patternToRegExp, hloop]; rfl
    refine ⟨fun lhs => regexTest iflag ('^' :: (emitTerms toks ++ ['$'])) lhs, ?_, ?_⟩
    · rw [getLikeOp, if_neg (not_not_intro hany), hre]
    · intro s hs
      exact regexTest_emitTerms iflag toks s hs
  · -- fast path: the pattern is all literals
    have hall : p.all (fun c => ¬(c == '_' || c == '%' || c == '\\')) = true := by
      simp only [List.all_eq_true, decide_eq_true_eq]
      intro c hc
      intro hcontra
      exact hany (List.any_eq_true.mpr ⟨c, hc, hcontra⟩)
    have htoks : toks = p.map .lchar := by
      have := likeTokens_no_special p hall
      rw [h] at this
      injection this
    subst htoks
    cases iflag with
    | false =>
      refine ⟨fun lhs => lhs == p, ?_, ?_⟩
      · rw [getLikeOp, if_pos hany]
        simp
      · intro s _
        rw [likeMatches_all_lchar_false]
    | true =>
      refine ⟨fun lhs => lhs.map Char.toLower == p.map Char.toLower, ?_, ?_⟩
      · rw [getLikeOp, if_pos hany]
        simp
      · intro s _
        rw [likeMatches_all_lchar_true]

theorem getLikeOp_error_of_likeTokens_error (p : List Char) (e : String)
    (iflag : Bool) (h : likeTokens p = .error e) :
    getLikeOp p iflag = .error e := by
  have hany := likeTokens_error_has_bslash p e h
  have hloop : patternToRegExpLoop p = .error e := by
    rw [patternToRegExpLoop_eq_likeTokens, h]; rfl
  have hre : patternToRegExp p = .error e := by
    rw [patternToRegExp, hloop]; rfl
  rw [getLikeOp, if_neg (not_not_intro hany), hre]

/-- C3 (counterexample): the claim fails as stated.  For the pattern `_`
and the string `"\n"`, SQL LIKE matches (`_` is exactly one character) but
the compiled predicate — the regexp `/^.$/` with no `s` flag — returns
false, since ECMA-262 `.` excludes line terminators. -/
theorem like_compile_agrees_with_sql_counterexample :
    likeTokens ['_'] = .ok [.uscore] ∧
    likeMatches false [.uscore] ['\n'] = true ∧
    (∃ f, getLikeOp ['_'] false = .ok f ∧ f ['\n'] = false) := by
  refine ⟨rfl, by decide, ⟨_, rfl, by decide⟩⟩

/-- C3 (amended): for every LIKE/ILIKE pattern `p` and every string `s`
containing no line terminator (LF, CR, U+2028, U+2029), the compiled
predicate agrees with SQL LIKE semantics (`%` = any run, `_` = one
character, `\` escapes the next character), and a pattern ending in an
unescaped trailing backslash makes compilation error instead of returning a
predicate.  On strings containing a line terminator the compiled regexp's
`.`/`.*` (produced for `_`/`%`, never given the `s` flag) refuse the line
terminator and the compiled predicate diverges from SQL LIKE. -/
theorem like_compile_agrees_with_sql (p s : List Char)
    (hs : s.all (fun c => !isLineTerminator c) = true) :
    (∀ toks, likeTokens p = .ok toks →
      ∃ f g, getLikeOp p false = .ok f ∧ getLikeOp p true = .ok g ∧
        f s = likeMatches false toks s ∧ g s = likeMatches true toks s) ∧
    (∀ e, likeTokens p = .error e →
      getLikeOp p false = .error e ∧ getLikeOp p true = .error e) := by
  constructor
  · intro toks h
    obtain ⟨f, hf, hfs⟩ := getLikeOp_ok_matches p toks false h
    obtain ⟨g, hg, hgs⟩ := getLikeOp_ok_matches p toks true h
    exact ⟨f, g, hf, hg, hfs s hs, hgs s hs⟩
  · intro e h
    exact ⟨getLikeOp_error_of_likeTokens_error p e false h,
      getLikeOp_error_of_likeTokens_error p e true h⟩

/-- Witness for C3 at the pattern `a%` and the line-terminator-free string
`ab`. -/
theorem like_compile_agrees_with_sql_witness :
    ∃ f, getLikeOp ['a', '%'] false = .ok f ∧
      f ['a', 'b'] = likeMatches false [.lchar 'a', .percent] ['a', 'b'] := by
  obtain ⟨f, g, hf, _, hfs, _⟩ :=
    (like_compile_agrees_with_sql ['a', '%'] ['a', 'b'] (by decide)).1
      [.lchar 'a', .percent] rfl
  exact ⟨f, hf, hfs⟩

/-- C10: a LIKE/ILIKE pattern containing none of `%`, `_`, `\` compiles to
plain string equality (lowercase-folded for ILIKE), and this fast path
agrees with the general regexp compilation of the same pattern on every
input string. -/
theorem getLikeOp_fast_path_equiv (p s : List Char)
    (h : p.all (fun c => ¬(c == '_' || c == '%' || c == '\\')) = true) :
    getLikeOp p false = .ok (fun lhs => lhs == p) ∧
    getLikeOp p true = .ok (fun lhs => lhs.map Char.toLower == p.map Char.toLower) ∧
    ∃ re, patternToRegExp p = .ok re ∧
      regexTest false re s = (s == p) ∧
      regexTest true re s = (s.map Char.toLower == p.map Char.toLower) := by
  have hany : ¬ p.any (fun c => c == '_' || c == '%' || c == '\\') = true := by
    intro hcontra
    obtain ⟨c, hc, hcc⟩ := List.any_eq_true.mp hcontra
    have := List.all_eq_true.mp h c hc
    simp only [decide_eq_true_eq] at this
    exact this hcc
  have htoks : likeTokens p = .ok (p.map .lchar) := likeTokens_no_special p h
  have hloop : patternToRegExpLoop p = .ok (emitTerms (p.map .lchar)) := by
    rw [patternToRegExpLoop_eq_likeTokens, htoks]; rfl
  have hre : patternToRegExp p = .ok ('^' :: (emitTerms (p.map .lchar) ++ ['$'])) := by
    rw [patternToRegExp, hloop]; rfl
  refine ⟨?_, ?_, '^' :: (emitTerms (p.map .lchar) ++ ['$']), hre, ?_, ?_⟩
  · rw [getLikeOp, if_pos hany]
    simp
  · rw [getLikeOp, if_pos hany]
    simp
  · rw [regexTest_emitTerms_lchar, likeMatches_all_lchar_false]
  · rw [regexTest_emitTerms_lchar, likeMatches_all_lchar_true]

/-- Witness for C10 at the pattern `ab`, checked on the strings `ab`/`aB`. -/
theorem getLikeOp_fast_path_equiv_witness :
    getLikeOp ['a', 'b'] false = .ok (fun lhs => lhs == ['a', 'b']) ∧
    (∃ re, patternToRegExp ['a', 'b'] = .ok re ∧
      regexTest false re ['a', 'B'] = (['a', 'B'] == ['a', 'b'])) := by
  obtain ⟨h1, _, re, hre, hmatch, _⟩ :=
    getLikeOp_fast_path_equiv ['a', 'b'] ['a', 'B'] (by decide)
  exact ⟨h1, re, hre, hmatch⟩

/-! ## Condition operators (`getOperator`)

`getOperator` receives `condition.value.value` (here `rhs : QVal`) and
returns a predicate over the left-hand value.  JS `===` compares objects by
reference; since AST constants and row values are always distinct objects,
array–array `===` is embedded as `false`.  `Set.has` / `Array.includes` use
SameValueZero, which agrees with `===` on the primitive values involved.
`getOperator` returns `none` where the source would throw or where the
query-builder typing rules out the shape of `rhs` (the source assumes
well-typedness: "once we're down here we can assume that the operator is
valid"). -/

/-- JS strict equality `===` on embedded values. -/
def jsStrictEq : QVal → QVal → Bool
  | .jsUndefined, .jsUndefined => true
  | .null, .null => true
  | .str a, .str b => a == b
  | .num a, .num b => a == b
  | .bool a, .bool b => a == b
  | _, _ => false

/-- `Set(rhs).has v` (SameValueZero membership). -/
def setHas (vs : List QVal) (v : QVal) : Bool :=
  vs.any (fun x => jsStrictEq x v)

/-- JS `<` restricted to same-type number/string comparisons; cross-type
coercions are left unspecified (see the spec's open questions) and embedded
as `false`. -/
def jsLt : QVal → QVal → Bool
  | .num a, .num b => a < b
  | .str a, .str b => a < b
  | _, _ => false

/-- JS `<=` under the same restriction as `jsLt`. -/
def jsLe : QVal → QVal → Bool
  | .num a, .num b => a ≤ b
  | .str a, .str b => a ≤ b
  | _, _ => false

/-- The `not` combinator of the source. -/
def notPred {α : Type} (f : α → Bool) : α → Bool := fun lhs => !f lhs

/-- The simple-condition operators of the AST. -/
inductive SimpleOp where
  | opEq | opNeq | opLt | opGt | opGe | opLe
  | opIn | opNotIn
  | opLike | opNotLike | opILike | opNotILike
  | opIntersects | opDisjoint | opSuperset | opCongruent | opIncongruent
  | opSubset
deriving DecidableEq, Repr

/-- A LIKE predicate lifted to `QVal` (the row value must be a string). -/
def likePredOn (rhs : QVal) (iflag : Bool) : Option (QVal → Bool) :=
  match rhs with
  | .str r =>
    match getLikeOp r.toList iflag with
    | .ok f => some (fun lhs => match lhs with | .str l => f l.toList | _ => false)
    | .error _ => none
  | _ => none

/-- `getOperator(condition)` from the pipeline builder. -/
def getOperator (op : SimpleOp) (rhs : QVal) : Option (QVal → Bool) :=
  match op with
  | .opEq => some fun lhs => jsStrictEq lhs rhs
  | .opNeq => some fun lhs => !jsStrictEq lhs rhs
  | .opLt => some fun lhs => jsLt lhs rhs
  | .opGt => some fun lhs => jsLt rhs lhs
  | .opGe => some fun lhs => jsLe rhs lhs
  | .opLe => some fun lhs => jsLe lhs rhs
  | .opIn =>
    match rhs with
    | .arr vs => some fun lhs => vs.any (fun v => jsStrictEq v lhs)
    | _ => none
  | .opNotIn =>
    match rhs with
    | .arr vs => some fun lhs => !vs.any (fun v => jsStrictEq v lhs)
    | _ => none
  | .opLike => likePredOn rhs false
  | .opNotLike => (likePredOn rhs false).map notPred
  | .opILike => likePredOn rhs true
  | .opNotILike => (likePredOn rhs true).map notPred
  | .opIntersects =>
    match rhs with
    | .arr vs => some fun lhs =>
        match lhs with
        | .arr ls => ls.any (fun x => setHas vs x)
        | _ => setHas vs lhs
    | _ => none
  | .opDisjoint =>
    match rhs with
    | .arr vs => some fun lhs =>
        match lhs with
        | .arr ls => ls.all (fun x => !setHas vs x)
        | _ => !setHas vs lhs
    | _ => none
  | .opSuperset =>
    match rhs with
    | .arr vs => some fun lhs =>
        if vs.isEmpty then true
        else
          match lhs with
          | .arr ls => vs.all (fun x => setHas ls x)
          | _ =>
            match vs with
            | [x] => jsStrictEq lhs x
            | _ => false
    | _ => none
  | .opCongruent =>
    match rhs with
    | .arr vs => some fun lhs =>
        match lhs with
        | .arr ls => (vs.dedup.length == ls.length) && ls.all (fun x => setHas vs x)
        | _ =>
          match vs with
          | [x] => jsStrictEq lhs x
          | _ => false
    | _ => none
  | .opIncongruent =>
    match rhs with
    | .arr vs => some fun lhs =>
        match lhs with
        | .arr ls => (vs.dedup.length != ls.length) || !ls.all (fun x => setHas vs x)
        | _ =>
          match vs with
          | [x] => !jsStrictEq lhs x
          | _ => true
    | _ => none
  | .opSubset =>
    match rhs with
    | .arr vs => some fun lhs =>
        match lhs with
        | .arr ls => ls.all (fun x => setHas vs x)
        | _ => setHas vs lhs
    | _ => none

/-- C8: the predicate compiled for `IN` with an empty right-hand list is
constantly false, and the predicate compiled for `SUPERSET` with an empty
right-hand list is constantly true, regardless of the left-hand value. -/
theorem empty_in_false_empty_superset_true (v : QVal) :
    (∃ f, getOperator .opIn (.arr []) = some f ∧ f v = false) ∧
    (∃ g, getOperator .opSuperset (.arr []) = some g ∧ g v = true) :=
  ⟨⟨_, rfl, rfl⟩, ⟨_, rfl, rfl⟩⟩

/-! ## Where-condition compilation (`applyWhere` / `applyAnd` / `applyOr`)

A `DifferenceStream` is embedded by the multiset of rows it carries at one
commit boundary (a `List Entity`); per the spec, `filter` keeps matching
rows, `concat` merges branch outputs, and the `distinct` operator appended
by `applyOr` deduplicates.  `getValueFromEntity` (a field lookup returning
`undefined` for absent fields) is not among the sources and is modelled
accordingly. -/

/-- A row flowing through the pipeline: field name to value. -/
def Entity : Type := List (String × QVal)

instance : DecidableEq Entity := inferInstanceAs (DecidableEq (List (String × QVal)))

/-- Field access on a row; absent fields read as JS `undefined`. -/
def getValueFromEntity (x : Entity) (field : String) : QVal :=
  match x.lookup field with
  | some v => v
  | none => .jsUndefined

/-- A where-condition tree: `AND`/`OR` over simple conditions. -/
inductive Cond where
  | simple (field : String) (op : SimpleOp) (value : QVal) : Cond
  | and (conds : List Cond) : Cond
  | or (conds : List Cond) : Cond

/-- `applySimpleCondition`: filter the stream by the compiled operator.  The
query builder guarantees the operator compiles; an uncompilable operator is
embedded as an always-false filter. -/
def applySimpleCondition (s : List Entity) (field : String) (op : SimpleOp)
    (value : QVal) : List Entity :=
  s.filter fun x => ((getOperator op value).getD (fun _ => false))
    (getValueFromEntity x field)

mutual
/-- `applyWhere`: dispatch on the condition operator. -/
def applyWhere (s : List Entity) : Cond → List Entity
  | .simple field op value => applySimpleCondition s field op value
  | .and cs => applyAnd s cs
  | .or cs => (applyOrBranches s cs).flatten.dedup

/-- `applyAnd`: stack the filters in sequence over the same stream. -/
def applyAnd (s : List Entity) : List Cond → List Entity
  | [] => s
  | c :: cs => applyAnd (applyWhere s c) cs

/-- The branches created by `applyOr`: one per disjunct, each applying its
sub-condition to a fork of the incoming stream. -/
def applyOrBranches (s : List Entity) : List Cond → List (List Entity)
  | [] => []
  | c :: cs => applyWhere s c :: applyOrBranches s cs
end

theorem applyAnd_eq_foldl (cs : List Cond) (s : List Entity) :
    applyAnd s cs = cs.foldl applyWhere s := by
  induction cs generalizing s with
  | nil => rw [applyAnd, List.foldl_nil]
  | cons c cs ih => rw [applyAnd, List.foldl_cons, ih]

theorem applyOrBranches_eq_map (cs : List Cond) (s : List Entity) :
    applyOrBranches s cs = cs.map (applyWhere s) := by
  induction cs with
  | nil => rw [applyOrBranches, List.map_nil]
  | cons c cs ih => rw [applyOrBranches, List.map_cons, ih]

/-- C9: `AND` compiles to stacked filters applied in sequence; `OR` compiles
to one branch per disjunct, concatenated and closed with a distinct
operator, so that any row — in particular one satisfying several disjuncts —
appears at most once in the output, and appears exactly when some branch
produces it. -/
theorem applyWhere_and_or_structure (s : List Entity) (cs : List Cond)
    (r : Entity) :
    applyWhere s (.and cs) = cs.foldl applyWhere s ∧
    applyWhere s (.or cs) = ((cs.map (applyWhere s)).flatten).dedup ∧
    (applyWhere s (.or cs)).count r ≤ 1 ∧
    (r ∈ applyWhere s (.or cs) ↔ ∃ c ∈ cs, r ∈ applyWhere s c) := by
  refine ⟨by rw [applyWhere, applyAnd_eq_foldl], ?_, ?_, ?_⟩
  · rw [applyWhere, applyOrBranches_eq_map]
  · rw [applyWhere]
    exact List.nodup_iff_count_le_one.mp (List.nodup_dedup _) r
  · rw [applyWhere, applyOrBranches_eq_map]
    simp [List.mem_dedup, List.mem_flatten, List.mem_map]

/-! ## Connection message handling (`Connection.#handleMessage`, `push` case)

The handler validates `clientGroupID` on a push; on mismatch it sends an
`InvalidPush` error and closes the connection.  The `switch` case then falls
through to the mutation loop without returning, so the effects of the loop
are traced after the error regardless of the mismatch.  Mutagen results are
supplied as a map from mutation to optional error description. -/

/-- Downstream wire error kinds. -/
inductive ErrorKind where
  | invalidMessage | invalidPush | mutationFailed | internal
deriving DecidableEq, Repr

/-- Observable effects of handling a push message, in program order. -/
inductive ConnEffect where
  | sendError (kind : ErrorKind) (desc : String) : ConnEffect
  | closeConn : ConnEffect
  | forwardMutation (m : Nat) : ConnEffect
deriving DecidableEq, Repr

/-- The `InvalidPush` description built by the handler (the source's template
literal lacks the closing quote after the connection's id). -/
def invalidPushDesc (msgCGID connCGID : String) : String :=
  "clientGroupID in mutation \"" ++ msgCGID ++ "\" does not match " ++
    "clientGroupID of connection \"" ++ connCGID

/-- The `push` case of `Connection.#handleMessage`: on `clientGroupID`
mismatch, send `InvalidPush` and close; then (fall-through) forward every
mutation to the mutagen, sending `MutationFailed` for each failed one. -/
def handlePush (connCGID : String) (msgCGID : String) (mutations : List Nat)
    (mutagenResult : Nat → Option String) : List ConnEffect :=
  (if msgCGID ≠ connCGID then
    [.sendError .invalidPush (invalidPushDesc msgCGID connCGID), .closeConn]
  else []) ++
  mutations.flatMap (fun m =>
    .forwardMutation m ::
      (match mutagenResult m with
       | some desc => [.sendError .mutationFailed desc]
       | none => []))

/-- C1 (code bug): a push whose `clientGroupID` mismatches the connection is
answered with `InvalidPush` and the connection closes, but — contrary to the
claim — the message's mutations are still forwarded to the mutation service:
the evaluation below traces `forwardMutation 7` after the close. -/
theorem push_mismatch_still_forwards_mutations :
    handlePush "g1" "g2" [7] (fun _ => none) =
      [.sendError .invalidPush (invalidPushDesc "g2" "g1"), .closeConn,
        .forwardMutation 7] ∧
    .forwardMutation 7 ∈ handlePush "g1" "g2" [7] (fun _ => none) := by
  constructor
  · rfl
  · simp [handlePush]

/-! ## Outbound stream protocol (`streamOut`)

`streamOut` assigns `id = ++nextID` to each source message, sends it, and
blocks on the ack queue before the next send; a mismatched ack throws.  The
run is embedded over the list of source messages and the sequence of acks
received, returning the sent ids and how the loop ended. -/

/-- How a `streamOut` run ends: source exhausted (`closed`), blocked on an
ack that never arrives (`waiting`), or a mismatched ack (`errored`). -/
inductive StreamResult where
  | closed | waiting | errored
deriving DecidableEq, Repr

/-- One run of the `streamOut` send loop from counter `nextID`. -/
def streamOutRun {α : Type} (nextID : Nat) (msgs : List α) (acks : List Int) :
    List Nat × StreamResult :=
  match msgs with
  | [] => ([], .closed)
  | _ :: ms =>
    match acks with
    | [] => ([nextID + 1], .waiting)
    | a :: as_ =>
      if a = ((nextID + 1 : Nat) : Int) then
        let rec_ := streamOutRun (nextID + 1) ms as_
        ((nextID + 1) :: rec_.1, rec_.2)
      else ([nextID + 1], .errored)

theorem streamOutRun_spec {α : Type} (msgs : List α) :
    ∀ (n : Nat) (acks : List Int),
      (streamOutRun n msgs acks).1 =
        List.range' (n + 1) (streamOutRun n msgs acks).1.length ∧
      (streamOutRun n msgs acks).1.length ≤ acks.length + 1 ∧
      (∀ k, k + 1 < (streamOutRun n msgs acks).1.length →
        acks[k]? = some ((n + k + 1 : Nat) : Int)) ∧
      ((streamOutRun n msgs acks).2 = .errored →
        1 ≤ (streamOutRun n msgs acks).1.length ∧
        ∃ a, acks[(streamOutRun n msgs acks).1.length - 1]? = some a ∧
          a ≠ ((n + (streamOutRun n msgs acks).1.length : Nat) : Int)) := by
  induction msgs with
  | nil =>
    intro n acks
    simp [streamOutRun, List.range']
  | cons m ms ih =>
    intro n acks
    match acks with
    | [] =>
      refine ⟨by simp [streamOutRun, List.range'], by simp [streamOutRun], ?_, ?_⟩
      · intro k hk
        simp [streamOutRun] at hk
      · intro hres
        simp [streamOutRun] at hres
    | a :: as_ =>
      by_cases ha : a = ((n + 1 : Nat) : Int)
      · obtain ⟨ih1, ih2, ih3, ih4⟩ := ih (n + 1) as_
        have hrun : streamOutRun n (m :: ms) (a :: as_) =
            ((n + 1) :: (streamOutRun (n + 1) ms as_).1,
              (streamOutRun (n + 1) ms as_).2) := by
          simp [streamOutRun, ha]
        rw [hrun]
        refine ⟨?_, ?_, ?_, ?_⟩
        · simp only [List.length_cons]
          rw [List.range'_succ]
          simp only [List.cons.injEq, true_and]
          convert ih1 using 2
        · simp only [List.length_cons, List.length_cons]
          omega
        · intro k hk
          cases k with
          | zero => simp [ha]
          | succ k' =>
            simp only [List.length_cons] at hk
            have := ih3 k' (by omega)
            simpa [Nat.add_assoc, Nat.add_comm, Nat.add_left_comm] using this
        · intro hres
          obtain ⟨hlen1, b, hb, hbne⟩ := ih4 hres
          refine ⟨by simp, b, ?_, ?_⟩
          · simp only [List.length_cons]
            obtain ⟨j, hj⟩ : ∃ j, (streamOutRun (n + 1) ms as_).1.length = j + 1 :=
              ⟨(streamOutRun (n + 1) ms as_).1.length - 1, by omega⟩
            rw [hj] at hb ⊢
            simpa using hb
          · simp only [List.length_cons]
            intro hcontra
            apply hbne
            rw [hcontra]
            congr 1
            omega
      · have hrun : streamOutRun n (m :: ms) (a :: as_) =
            ([n + 1], .errored) := by
          simp only [streamOutRun, if_neg ha]
        rw [hrun]
        refine ⟨by simp [List.range'], by simp, ?_, ?_⟩
        · intro k hk
          simp at hk
        · intro _
          refine ⟨by simp, a, by simp, ?_⟩
          simpa using ha

/-! ## Replication message processing (`MessageProcessor` / `TransactionProcessor`)

The `txSerializer` lock runs one transaction body after another.  A body
first checks `#failure`: when a preceding transaction failed it fails with a
`PrecedingTransactionError` and performs nothing.  Otherwise the downstream
Postgres transaction runs; on success the commit LSN is acknowledged; a
unique violation on `_zero."TxLog"` means the transaction was already
persisted (the Postgres transaction rolled back, so nothing is written
twice) and is recovered by re-sending the acknowledgement; any other error
sets `#failure` and fails the service without acknowledging.  The outcome of
the downstream Postgres transaction is an input of the embedding. -/

/-- `PG_UNIQUE_VIOLATION` (Postgres error code 23505). -/
def PG_UNIQUE_VIOLATION : String := "23505"

/-- Outcome of attempting the downstream Postgres transaction. -/
inductive TxOutcome where
  | committed : TxOutcome
  | pgError (code schemaName tableName msg : String) : TxOutcome
  | jsError (msg : String) : TxOutcome
deriving DecidableEq, Repr

/-- One upstream transaction: its commit LSN, the row writes its statements
would perform, and how the downstream Postgres transaction ends. -/
structure TxSpec where
  commitLsn : String
  writes : List (String × String)
  outcome : TxOutcome
deriving DecidableEq, Repr

/-- How one enqueued transaction body ended. -/
inductive TxStatus where
  | processed : TxStatus
  | skippedDuplicate : TxStatus
  | failedPreceding (e : String) : TxStatus
  | failedError (e : String) : TxStatus
deriving DecidableEq, Repr

/-- `MessageProcessor` state: the sticky `#failure`, the replica contents
(an append log of applied row writes), and the LSNs acknowledged upstream. -/
structure MPState where
  failure : Option String
  replica : List (String × String)
  acked : List String
deriving DecidableEq, Repr

/-- The `txSerializer` body enqueued by `#createAndEnqueueNewTransaction`
for one transaction. -/
def runEnqueued (st : MPState) (t : TxSpec) : MPState × TxStatus :=
  match st.failure with
  | some e => (st, .failedPreceding e)
  | none =>
    match t.outcome with
    | .committed =>
      ({st with replica := st.replica ++ t.writes,
                acked := st.acked ++ [t.commitLsn]}, .processed)
    | .pgError code schemaName tableName msg =>
      if code = PG_UNIQUE_VIOLATION ∧ schemaName = "_zero" ∧ tableName = "TxLog" then
        ({st with acked := st.acked ++ [t.commitLsn]}, .skippedDuplicate)
      else
        ({st with failure := some msg}, .failedError msg)
    | .jsError msg => ({st with failure := some msg}, .failedError msg)

/-- Serialized processing of a list of transactions. -/
def runAll (st : MPState) : List TxSpec → MPState × List TxStatus
  | [] => (st, [])
  | t :: ts =>
    let step := runEnqueued st t
    let rest := runAll step.1 ts
    (rest.1, step.2 :: rest.2)

theorem runAll_poisoned (st : MPState) (e : String) (txs : List TxSpec)
    (h : st.failure = some e) :
    runAll st txs = (st, txs.map fun _ => .failedPreceding e) := by
  induction txs with
  | nil => rw [runAll, List.map_nil]
  | cons t ts ih =>
    have hstep : runEnqueued st t = (st, .failedPreceding e) := by
      rw [runEnqueued.eq_def, h]
    rw [runAll, hstep, ih, List.map_cons]

theorem runAll_committed (pre : List TxSpec) :
    ∀ (st0 : MPState), st0.failure = none →
      (∀ t ∈ pre, t.outcome = .committed) →
      (runAll st0 pre).2 = pre.map (fun _ => TxStatus.processed) := by
  induction pre with
  | nil => intro st0 _ _; rw [runAll, List.map_nil]
  | cons t ts ih =>
    intro st0 h0 hpre
    have ht : t.outcome = .committed := hpre t (List.mem_cons_self t ts)
    have hstep : runEnqueued st0 t =
        ({st0 with replica := st0.replica ++ t.writes,
                   acked := st0.acked ++ [t.commitLsn]}, .processed) := by
      rw [runEnqueued.eq_def, h0, ht]
    rw [runAll, hstep, List.map_cons]
    have := ih {st0 with replica := st0.replica ++ t.writes,
                         acked := st0.acked ++ [t.commitLsn]} h0
      (fun u hu => hpre u (List.mem_cons_of_mem t hu))
    simpa using this

/-- C4: replaying a transaction whose commit collides with an existing
`TxLog` watermark (unique violation on `_zero."TxLog"`) is treated as
already persisted: the commit LSN is re-acknowledged, no row is written
again, no failure is recorded (the stream keeps processing), and the
transaction is skipped rather than failed. -/
theorem duplicate_commit_treated_as_success (st : MPState) (lsn : String)
    (writes : List (String × String)) (msg : String)
    (h : st.failure = none) :
    (runEnqueued st ⟨lsn, writes,
      .pgError PG_UNIQUE_VIOLATION "_zero" "TxLog" msg⟩).1.replica = st.replica ∧
    (runEnqueued st ⟨lsn, writes,
      .pgError PG_UNIQUE_VIOLATION "_zero" "TxLog" msg⟩).1.acked = st.acked ++ [lsn] ∧
    (runEnqueued st ⟨lsn, writes,
      .pgError PG_UNIQUE_VIOLATION "_zero" "TxLog" msg⟩).1.failure = none ∧
    (runEnqueued st ⟨lsn, writes,
      .pgError PG_UNIQUE_VIOLATION "_zero" "TxLog" msg⟩).2 = .skippedDuplicate := by
  have hstep : runEnqueued st ⟨lsn, writes,
      .pgError PG_UNIQUE_VIOLATION "_zero" "TxLog" msg⟩ =
      ({st with acked := st.acked ++ [lsn]}, .skippedDuplicate) := by
    rw [runEnqueued.eq_def, h]
    simp
  rw [hstep]
  exact ⟨rfl, rfl, h, rfl⟩

/-- Witness for C4 from the empty clean state. -/
theorem duplicate_commit_treated_as_success_witness :
    (runEnqueued ⟨none, [("t", "k")], ["0/1"]⟩ ⟨"0/2", [("t", "k")],
      .pgError PG_UNIQUE_VIOLATION "_zero" "TxLog" "duplicate key"⟩).1.replica =
        [("t", "k")] ∧
    (runEnqueued ⟨none, [("t", "k")], ["0/1"]⟩ ⟨"0/2", [("t", "k")],
      .pgError PG_UNIQUE_VIOLATION "_zero" "TxLog" "duplicate key"⟩).1.acked =
        ["0/1", "0/2"] ∧
    (runEnqueued ⟨none, [("t", "k")], ["0/1"]⟩ ⟨"0/2", [("t", "k")],
      .pgError PG_UNIQUE_VIOLATION "_zero" "TxLog" "duplicate key"⟩).2 =
        .skippedDuplicate := by
  obtain ⟨h1, h2, _, h4⟩ := duplicate_commit_treated_as_success
    ⟨none, [("t", "k")], ["0/1"]⟩ "0/2" [("t", "k")] "duplicate key" rfl
  exact ⟨h1, h2, h4⟩

/-- C6: once a transaction has failed, the sticky `#failure` makes every
subsequent transaction fail with the preceding-transaction error, with no
replica write and no upstream acknowledgement; transactions enqueued before
the failure (a committed prefix run from a clean state) all complete. -/
theorem pipeline_failure_poisons_subsequent (st : MPState) (e : String)
    (txs : List TxSpec) (h : st.failure = some e) :
    (runAll st txs).1.replica = st.replica ∧
    (runAll st txs).1.acked = st.acked ∧
    (runAll st txs).1.failure = some e ∧
    (runAll st txs).2 = txs.map (fun _ => .failedPreceding e) ∧
    (∀ st0 : MPState, st0.failure = none →
      ∀ pre : List TxSpec, (∀ t ∈ pre, t.outcome = .committed) →
        (runAll st0 pre).2 = pre.map (fun _ => TxStatus.processed)) := by
  rw [runAll_poisoned st e txs h]
  exact ⟨rfl, rfl, h, rfl, fun st0 h0 pre hpre => runAll_committed pre st0 h0 hpre⟩

/-- Witness for C6: a poisoned state fails two further transactions and
leaves replica and acks untouched, while a committed prefix from a clean
state completes. -/
theorem pipeline_failure_poisons_subsequent_witness :
    (runAll ⟨some "boom", [], ["0/1"]⟩
      [⟨"0/2", [("t", "a")], .committed⟩, ⟨"0/3", [], .committed⟩]).2 =
      [.failedPreceding "boom", .failedPreceding "boom"] ∧
    (runAll ⟨some "boom", [], ["0/1"]⟩
      [⟨"0/2", [("t", "a")], .committed⟩, ⟨"0/3", [], .committed⟩]).1.acked =
      ["0/1"] ∧
    (runAll ⟨none, [], []⟩ [⟨"0/2", [("t", "a")], .committed⟩]).2 =
      [TxStatus.processed] := by
  obtain ⟨_, h2, _, h4, h5⟩ := pipeline_failure_poisons_subsequent
    ⟨some "boom", [], ["0/1"]⟩ "boom"
    [⟨"0/2", [("t", "a")], .committed⟩, ⟨"0/3", [], .committed⟩] rfl
  refine ⟨h4, h2, ?_⟩
  exact h5 ⟨none, [], []⟩ rfl [⟨"0/2", [("t", "a")], .committed⟩]
    (by intro t ht; simp at ht; rw [ht])

/-! ## View syncer (modelled from the spec)

The view-syncer implementation is not among the sources (only its tests
are), so its operations are modelled from the spec: desired-queries patches
are applied transactionally against the CVR and rejected wholesale when an
AST fails compilation; processing an upstream commit advances the CVR and
separately encodes the poke, which fails on values outside the wire
format's safe-integer range while the CVR still advances. -/

/-- Modelled from the spec: the query AST as far as compilation errors are
concerned (`view-syncer`/`zql` compile step, absent from the sources): a
table and the selected columns. -/
structure MAst where
  table : String
  select : List String
deriving DecidableEq, Repr

/-- Modelled from the spec: AST compilation succeeds exactly when the table
exists and every selected column is a column of that table ("unknown column
in a condition → rejected at compile time"). -/
def astCompiles (schema : List (String × List String)) (ast : MAst) : Bool :=
  match schema.lookup ast.table with
  | some cols => ast.select.all (fun c => cols.contains c)
  | none => false

/-- Replace the value under a key, or append the binding. -/
def upsert {β : Type} : List (String × β) → String → β → List (String × β)
  | [], k, v => [(k, v)]
  | (k', v') :: rest, k, v =>
    if k' = k then (k, v) :: rest else (k', v') :: upsert rest k v

/-- One entry of a desired-queries patch. -/
inductive QPatchOp where
  | put (hash : String) (ast : MAst) : QPatchOp
  | del (hash : String) : QPatchOp
deriving DecidableEq, Repr

/-- Modelled from the spec: the CVR fields touched by desired-queries
patches (clients with their desired query ids, the query map, and the minor
version). -/
structure CVRQueries where
  clients : List (String × List String)
  queries : List (String × MAst)
  minorVersion : Nat
deriving DecidableEq, Repr

/-- Modelled from the spec: apply one desired-queries patch entry; a `put`
whose AST does not compile is rejected. -/
def applyPatchEntry (schema : List (String × List String)) (clientID : String)
    (cvr : CVRQueries) : QPatchOp → Except String CVRQueries
  | .put hash ast =>
    if astCompiles schema ast then
      let ds := (cvr.clients.lookup clientID).getD []
      .ok ⟨upsert cvr.clients clientID (if hash ∈ ds then ds else ds ++ [hash]),
           upsert cvr.queries hash ast, cvr.minorVersion + 1⟩
    else
      .error ("Invalid query " ++ hash ++ ": unknown column")
  | .del hash =>
    let ds := (cvr.clients.lookup clientID).getD []
    .ok ⟨upsert cvr.clients clientID (ds.filter (fun h => h ≠ hash)),
         cvr.queries, cvr.minorVersion + 1⟩

/-- Modelled from the spec: `changeDesiredQueries` applies the patch
transactionally; an error performs no write, leaving the stored CVR exactly
as it was. -/
def changeDesiredQueries (schema : List (String × List String))
    (clientID : String) (cvr : CVRQueries) :
    List QPatchOp → Except String CVRQueries
  | [] => .ok cvr
  | p :: rest =>
    match applyPatchEntry schema clientID cvr p with
    | .ok cvr' => changeDesiredQueries schema clientID cvr' rest
    | .error e => .error e

/-- Modelled from the spec: `initConnection` applies its
`desiredQueriesPatch` the same way before any downstream is produced. -/
def initConnection (schema : List (String × List String)) (clientID : String)
    (cvr : CVRQueries) (patch : List QPatchOp) : Except String CVRQueries :=
  changeDesiredQueries schema clientID cvr patch

/-- C5: an `initConnection` or `changeDesiredQueries` whose desired-queries
patch contains an AST that fails compilation rejects with an error; since
the patch application is transactional, the erroring operation records no
client entry, query entry, or version change in the CVR. -/
theorem bad_ast_rejected_cvr_unmodified (schema : List (String × List String))
    (clientID : String) (cvr : CVRQueries) (patch : List QPatchOp)
    (h : ∃ hash ast, QPatchOp.put hash ast ∈ patch ∧
      astCompiles schema ast = false) :
    (∃ e, changeDesiredQueries schema clientID cvr patch = .error e) ∧
    (∃ e, initConnection schema clientID cvr patch = .error e) := by
  have main : ∀ (patch : List QPatchOp) (cvr : CVRQueries),
      (∃ hash ast, QPatchOp.put hash ast ∈ patch ∧
        astCompiles schema ast = false) →
      ∃ e, changeDesiredQueries schema clientID cvr patch = .error e := by
    intro patch
    induction patch with
    | nil =>
      intro cvr h
      obtain ⟨hash, ast, hmem, _⟩ := h
      exact absurd hmem (List.not_mem_nil _)
    | cons p rest ih =>
      intro cvr h
      obtain ⟨hash, ast, hmem, hbad⟩ := h
      rw [changeDesiredQueries]
      cases hp : applyPatchEntry schema clientID cvr p with
      | error e => exact ⟨e, rfl⟩
      | ok cvr' =>
        rcases List.mem_cons.mp hmem with heq | hrest
        · subst heq
          rw [applyPatchEntry, if_neg (by simp [hbad])] at hp
          cases hp
        · exact ih cvr' ⟨hash, ast, hrest, hbad⟩
  obtain ⟨e, he⟩ := main patch cvr h
  exact ⟨⟨e, he⟩, ⟨e, by rw [initConnection]; exact he⟩⟩

/-- Witness for C5: a patch selecting a non-existent column is rejected. -/
theorem bad_ast_rejected_cvr_unmodified_witness :
    (∃ e, changeDesiredQueries [("users", ["id", "name"])] "foo" ⟨[], [], 0⟩
      [.put "bad-query" ⟨"users", ["non_existent_column"]⟩] = .error e) := by
  obtain ⟨h1, _⟩ := bad_ast_rejected_cvr_unmodified [("users", ["id", "name"])]
    "foo" ⟨[], [], 0⟩ [.put "bad-query" ⟨"users", ["non_existent_column"]⟩]
    ⟨"bad-query", ⟨"users", ["non_existent_column"]⟩, by simp, by decide⟩
  exact h1

/-- `Number.MAX_SAFE_INTEGER`: the bound of the wire format's representable
integer range. -/
def MAX_SAFE_INTEGER : Int := 9007199254740991

/-- Is a scalar representable in the wire format? -/
def representableScalar : QVal → Bool
  | .num n => decide (-MAX_SAFE_INTEGER ≤ n ∧ n ≤ MAX_SAFE_INTEGER)
  | _ => true

/-- Is a row value (scalar or one-level array) representable? -/
def representableVal : QVal → Bool
  | .arr vs => vs.all representableScalar
  | v => representableScalar v

/-- Modelled from the spec: a row as seen at an upstream commit — its key,
its `_0_version` (the commit watermark that last wrote it), and its column
values. -/
structure VRow where
  rowKey : String
  rowVersion : String
  values : List (String × QVal)
deriving DecidableEq, Repr

/-- Modelled from the spec: the CVR fields touched by advancing to a commit
(`stateVersion`, row records, row patches). -/
structure RowCVR where
  stateVersion : String
  rowRecords : List (String × String)
  rowPatches : List (String × String × String)
deriving DecidableEq, Repr

/-- Modelled from the spec: encoding one row for the poke fails when some
value lies outside the representable-integer range of the wire format. -/
def encodeRow (r : VRow) : Except String (String × String) :=
  if r.values.all (fun kv => representableVal kv.2) then
    .ok (r.rowKey, r.rowVersion)
  else
    .error ("Value of \"" ++ r.rowKey ++ "\" is outside the range of safe integer")

/-- Modelled from the spec: record one row in the CVR (row record keyed by
row key, plus a row patch at the poke's version). -/
def recordRow (cvr : RowCVR) (v : String) (r : VRow) : RowCVR :=
  { cvr with
    rowRecords := upsert cvr.rowRecords r.rowKey r.rowVersion,
    rowPatches := cvr.rowPatches ++ [(v, r.rowKey, r.rowVersion)] }

/-- Modelled from the spec: walk the commit's rows, updating the CVR for
every row while building the poke; a non-representable value fails the poke
without interrupting the CVR updates ("the data is valid but unsendable"). -/
def processRows (v : String) : RowCVR → List VRow →
    RowCVR × Except String (List (String × String))
  | cvr, [] => (cvr, .ok [])
  | cvr, r :: rs =>
    let cvr1 := recordRow cvr v r
    let rest := processRows v cvr1 rs
    (rest.1,
      match encodeRow r with
      | .ok part =>
        match rest.2 with
        | .ok parts => .ok (part :: parts)
        | .error e => .error e
      | .error e => .error e)

/-- Modelled from the spec: process one upstream commit — the CVR advances
to the commit's state version with all row records and patches recorded,
and the poke is produced (or fails). -/
def processCommit (cvr : RowCVR) (v : String) (rows : List VRow) :
    RowCVR × Except String (List (String × String)) :=
  let res := processRows v cvr rows
  ({res.1 with stateVersion := v}, res.2)

/-- The pure CVR advance, independent of poke encoding. -/
def advanceCVR (cvr : RowCVR) (v : String) (rows : List VRow) : RowCVR :=
  { rows.foldl (fun acc r => recordRow acc v r) cvr with stateVersion := v }

theorem processRows_fst (v : String) (rows : List VRow) :
    ∀ cvr : RowCVR,
      (processRows v cvr rows).1 = rows.foldl (fun acc r => recordRow acc v r) cvr := by
  induction rows with
  | nil => intro cvr; rw [processRows, List.foldl_nil]
  | cons r rs ih => intro cvr; rw [processRows, List.foldl_cons]; exact ih _

theorem processRows_error_of_bad (v : String) (rows : List VRow) :
    ∀ cvr : RowCVR,
      (∃ r ∈ rows, ∃ kv ∈ r.values, representableVal kv.2 = false) →
      ∃ e, (processRows v cvr rows).2 = .error e := by
  induction rows with
  | nil =>
    intro cvr h
    obtain ⟨r, hmem, _⟩ := h
    exact absurd hmem (List.not_mem_nil _)
  | cons r rs ih =>
    intro cvr h
    obtain ⟨r', hmem, kv, hkv, hbad⟩ := h
    rw [processRows]
    rcases List.mem_cons.mp hmem with heq | hrest
    · subst heq
      have henc : ∃ e, encodeRow r' = .error e := by
        rw [encodeRow]
        rw [if_neg]
        · exact ⟨_, rfl⟩
        · simp only [List.all_eq_true, not_forall]
          exact ⟨kv, hkv, by simp [hbad]⟩
      obtain ⟨e, he⟩ := henc
      rw [he]
      cases (processRows v (recordRow cvr v r') rs).2 <;> exact ⟨e, rfl⟩
    · obtain ⟨e, he⟩ := ih (recordRow cvr v r) ⟨r', hrest, kv, hkv, hbad⟩
      rw [he]
      cases encodeRow r with
      | ok part => exact ⟨e, rfl⟩
      | error e' => exact ⟨e', rfl⟩

/-- C2: a commit containing a value outside the wire format's
representable-integer range fails its poke with a protocol error, yet the
CVR still advances to the commit's state version with its row records and
row patches recorded exactly as the pure advance (the one taken when the
poke succeeds) records them. -/
theorem unsafe_integer_fails_poke_but_cvr_advances (cvr : RowCVR) (v : String)
    (rows : List VRow)
    (h : ∃ r ∈ rows, ∃ kv ∈ r.values, representableVal kv.2 = false) :
    (∃ e, (processCommit cvr v rows).2 = .error e) ∧
    (processCommit cvr v rows).1 = advanceCVR cvr v rows ∧
    (processCommit cvr v rows).1.stateVersion = v := by
  refine ⟨?_, ?_, ?_⟩
  · obtain ⟨e, he⟩ := processRows_error_of_bad v rows cvr h
    exact ⟨e, by rw [processCommit]; exact he⟩
  · rw [processCommit, advanceCVR, processRows_fst]
  · rw [processCommit]

/-- Witness for C2: the update writing `big = 10000000000000000` fails the
poke while the CVR advances to `1xz` with the row recorded. -/
theorem unsafe_integer_fails_poke_witness :
    (∃ e, (processCommit ⟨"00", [], []⟩ "1xz"
      [⟨"issues/4", "1cd", [("big", .num 10000000000000000)]⟩]).2 = .error e) ∧
    (processCommit ⟨"00", [], []⟩ "1xz"
      [⟨"issues/4", "1cd", [("big", .num 10000000000000000)]⟩]).1.stateVersion =
      "1xz" := by
  obtain ⟨h1, _, h3⟩ := unsafe_integer_fails_poke_but_cvr_advances
    ⟨"00", [], []⟩ "1xz" [⟨"issues/4", "1cd", [("big", .num 10000000000000000)]⟩]
    ⟨⟨"issues/4", "1cd", [("big", .num 10000000000000000)]⟩, by simp,
      ("big", .num 10000000000000000), by simp, by decide⟩
  exact ⟨h1, h3⟩

theorem streamOutRun_mismatch_errors {α : Type} (msgs : List α) :
    ∀ (n : Nat) (acks : List Int) (k : Nat) (a : Int),
      acks[k]? = some a →
      (∀ j, j < k → acks[j]? = some ((n + j + 1 : Nat) : Int)) →
      k < msgs.length →
      a ≠ ((n + k + 1 : Nat) : Int) →
      (streamOutRun n msgs acks).2 = .errored := by
  induction msgs with
  | nil =>
    intro n acks k a _ _ hk _
    simp at hk
  | cons m ms ih =>
    intro n acks k a hka hprev hk hane
    match acks with
    | [] => simp at hka
    | a0 :: as_ =>
      by_cases h0 : a0 = ((n + 1 : Nat) : Int)
      · have hrun : streamOutRun n (m :: ms) (a0 :: as_) =
            ((n + 1) :: (streamOutRun (n + 1) ms as_).1,
              (streamOutRun (n + 1) ms as_).2) := by
          simp only [streamOutRun, if_pos h0]
        rw [hrun]
        cases k with
        | zero =>
          simp only [List.getElem?_cons_zero, Option.some.injEq] at hka
          exact absurd (hka ▸ h0) (by simpa using hane)
        | succ k' =>
          have hka' : as_[k']? = some a := by simpa using hka
          have hprev' : ∀ j, j < k' → as_[j]? = some ((n + 1 + j + 1 : Nat) : Int) := by
            intro j hj
            have := hprev (j + 1) (by omega)
            simp only [List.getElem?_cons_succ] at this
            convert this using 3
            omega
          have hane' : a ≠ ((n + 1 + k' + 1 : Nat) : Int) := by
            intro hcontra
            apply hane
            rw [hcontra]
            congr 1
            omega
          exact ih (n + 1) as_ k' a hka' hprev' (by simpa using hk) hane'
      · have hrun : streamOutRun n (m :: ms) (a0 :: as_) =
            ([n + 1], .errored) := by
          simp only [streamOutRun, if_neg h0]
        rw [hrun]

/-- C7: outbound messages carry strictly increasing ids starting at 1;
message `n+1` is sent only after the ack `{ack: n}` for message `n` was
received (the run never gets two messages ahead of the acks, and each
non-final send was preceded by the matching ack); and an ack differing from
the last-sent id terminates the stream with an error — the error case
arises exactly at a mismatched ack, and a mismatched ack (first among the
received acks, while messages remain) forces the error. -/
theorem streamOut_stop_and_wait {α : Type} (msgs : List α) (acks : List Int) :
    (streamOutRun 0 msgs acks).1 =
      List.range' 1 (streamOutRun 0 msgs acks).1.length ∧
    (streamOutRun 0 msgs acks).1.length ≤ acks.length + 1 ∧
    (∀ k, k + 1 < (streamOutRun 0 msgs acks).1.length →
      acks[k]? = some ((k + 1 : Nat) : Int)) ∧
    ((streamOutRun 0 msgs acks).2 = .errored →
      ∃ a, acks[(streamOutRun 0 msgs acks).1.length - 1]? = some a ∧
        a ≠ (((streamOutRun 0 msgs acks).1.length : Nat) : Int)) ∧
    (∀ k a, acks[k]? = some a →
      (∀ j, j < k → acks[j]? = some ((j + 1 : Nat) : Int)) →
      k < msgs.length → a ≠ ((k + 1 : Nat) : Int) →
      (streamOutRun 0 msgs acks).2 = .errored) := by
  obtain ⟨h1, h2, h3, h4⟩ := streamOutRun_spec msgs 0 acks
  refine ⟨by simpa using h1, h2, ?_, ?_, ?_⟩
  · intro k hk
    simpa using h3 k hk
  · intro hres
    obtain ⟨_, a, ha, hane⟩ := h4 hres
    exact ⟨a, ha, by simpa using hane⟩
  · intro k a hka hprev hk hane
    exact streamOutRun_mismatch_errors msgs 0 acks k a hka
      (by intro j hj; simpa using hprev j hj) hk (by simpa using hane)

/-- Witness for C7: two messages acknowledged in order get ids 1, 2 with the
first consumed ack being 1, and a run whose first ack is 5 errors. -/
theorem streamOut_stop_and_wait_witness :
    ((streamOutRun 0 [0, 0] [1, 2]).1 = List.range' 1 2 ∧
      (([1, 2] : List Int)[0]? = some ((0 + 1 : Nat) : Int))) ∧
    (streamOutRun 0 [0, 0] [5]).2 = .errored := by
  obtain ⟨h1, _, h3, _, _⟩ := streamOut_stop_and_wait [0, 0] [(1 : Int), 2]
  obtain ⟨_, _, _, _, h5⟩ := streamOut_stop_and_wait [0, 0] [(5 : Int)]
  have hlen : (streamOutRun 0 [0, 0] [(1 : Int), 2]).1.length = 2 := rfl
  refine ⟨⟨by rw [h1, hlen], h3 0 (by rw [hlen]; omega)⟩, ?_⟩
  exact h5 0 5 (by simp) (by intro j hj; omega) (by simp) (by decide)
